import Mathlib

/-!
Shallow embedding of the redirect-resolution core of the repository
(`src/fuzzyMatch.js`, `src/index.js`, `src/processErrors.js`).

Conventions of the embedding:
* JS strings are Lean `String`s; JS `null`/`undefined` values are `Option`.
* JS number arithmetic on similarity percentages is modelled exactly over `ℚ`.
* HTTP statuses are `Option Nat` (`none` = no HTTP response at all).
* JS truthiness tests on strings (`if (!str)`, `if (error.final_url)`) are
  modelled as emptiness tests, and on statuses (`status && ...`) as a
  non-`none`, non-zero test.
* The network (axios) and the SQLite store are external collaborators: the
  probe performed during the resolution sweep is passed in as a function
  `String → ProbeResult`, and the error/reference tables as lists.
-/

namespace Frizar

/-! ### `src/fuzzyMatch.js` -/

/-- One pass of the JS global regex replace `/kh/g` on a lowercase character
list: removes non-overlapping occurrences of `"kh"`, scanning left to right. -/
def removeKh : List Char → List Char
  | 'k' :: 'h' :: rest => removeKh rest
  | c :: rest => c :: removeKh rest
  | [] => []

/-- `normalizeString` from `src/fuzzyMatch.js`: guard on a falsy (empty)
string, lowercase, remove every `x`/`X` (the `/x/gi` replace), then remove
`"kh"` occurrences (the `/kh/gi` replace; after lowercasing only the
lowercase form occurs). -/
def normalizeString (str : String) : String :=
  if str = "" then ""
  else ⟨removeKh ((str.data.map Char.toLower).filter (fun c => !(c == 'x' || c == 'X')))⟩

/-- Unit-cost Levenshtein recurrence, driven by a fuel argument so that the
recursion is structural (every recursive call strictly decreases
`xs.length + ys.length`, so fuel `xs.length + ys.length` is always enough). -/
def levDistAux : Nat → List Char → List Char → Nat
  | 0, xs, ys => xs.length + ys.length
  | _ + 1, [], ys => ys.length
  | _ + 1, x :: xs, [] => (x :: xs).length
  | fuel + 1, x :: xs, y :: ys =>
    if x = y then levDistAux fuel xs ys
    else 1 + min (levDistAux fuel xs ys)
              (min (levDistAux fuel (x :: xs) ys) (levDistAux fuel xs (y :: ys)))

/-- Standard unit-cost Levenshtein distance, the semantics of the
`fast-levenshtein` library used by `src/fuzzyMatch.js`. -/
def levDist (xs ys : List Char) : Nat :=
  levDistAux (xs.length + ys.length) xs ys

/-- JS `Math.max` on two rationals. -/
def jsMax (a b : ℚ) : ℚ :=
  if a ≤ b then b else a

/-- JS `Math.min` on two rationals. -/
def jsMin (a b : ℚ) : ℚ :=
  if a ≤ b then a else b

/-- `calculateSimilarity` from `src/fuzzyMatch.js`. -/
def calculateSimilarity (str1 str2 : String) : ℚ :=
  if str1 = "" ∨ str2 = "" then 0
  else
    let normalized1 := normalizeString str1
    let normalized2 := normalizeString str2
    if normalized1 = normalized2 then 100
    else
      let maxLength : Nat := max normalized1.length normalized2.length
      if maxLength = 0 then 100
      else
        let distance : Nat := levDist normalized1.data normalized2.data
        let percent : ℚ := (1 - (distance : ℚ) / (maxLength : ℚ)) * 100
        jsMax 0 (jsMin 100 percent)

/-- An entry of the reference tables (`{code}` rows of `products`/`catalog`). -/
structure Candidate where
  code : String
deriving DecidableEq, Repr

/-- The value returned by `findBestMatch` (`{code, percent}`). -/
structure BestMatch where
  code : String
  percent : ℚ
deriving DecidableEq, Repr

/-- One iteration of the `for (const item of codes)` loop in `findBestMatch`:
the accumulator is the pair of the mutable `bestMatch` and `bestPercent`
variables. -/
def bestStep (searchCode : String) (acc : Option BestMatch × ℚ) (item : Candidate) :
    Option BestMatch × ℚ :=
  if item.code = "" then acc
  else
    let percent := calculateSimilarity searchCode item.code
    if acc.2 < percent then (some ⟨item.code, percent⟩, percent) else acc

/-- `findBestMatch` from `src/fuzzyMatch.js` (also the body of
`findBestMatchOptimized`, which just delegates to it). -/
def findBestMatch (searchCode : String) (codes : List Candidate) : Option BestMatch :=
  if searchCode = "" ∨ codes = [] then none
  else (codes.foldl (bestStep searchCode) (none, 0)).1

/-! ### URL helpers of `src/index.js` -/

/-- Value of a hexadecimal digit, used by the percent-decoder. -/
def hexVal (c : Char) : Option Nat :=
  if '0' ≤ c ∧ c ≤ '9' then some (c.toNat - '0'.toNat)
  else if 'a' ≤ c ∧ c ≤ 'f' then some (c.toNat - 'a'.toNat + 10)
  else if 'A' ≤ c ∧ c ≤ 'F' then some (c.toNat - 'A'.toNat + 10)
  else none

/-- Percent-decoding of a character list: a `%` must be followed by two hex
digits, which decode to the character with that code point; a malformed
percent escape makes the whole decode fail. -/
def percentDecode : List Char → Option (List Char)
  | [] => some []
  | '%' :: c1 :: c2 :: rest =>
    match hexVal c1, hexVal c2 with
    | some h1, some h2 => (percentDecode rest).map (Char.ofNat (16 * h1 + h2) :: ·)
    | _, _ => none
  | '%' :: _ => none
  | c :: rest => (percentDecode rest).map (c :: ·)

/-- Model of the JS builtin `decodeURIComponent` used by
`extractLastSegment`: percent escapes are decoded, and a malformed escape
(`%` not followed by two hex digits) throws, modelled as `none`.  (The real
builtin additionally rejects escape sequences that are not valid UTF-8; the
pipeline only relies on decoding succeeding on well-formed input and
throwing on malformed input, which this model captures.) -/
def decodeURIComponent (s : String) : Option String :=
  (percentDecode s.data).map (⟨·⟩)

/-- The JS `u.replace(/\/$/, '')` used throughout the pipeline: removes a
single trailing slash if present. -/
def stripTrailingSlash (s : String) : String :=
  match s.data.getLast? with
  | some '/' => ⟨s.data.dropLast⟩
  | _ => s

/-- JS `String.prototype.split` with a single-character separator, on
character lists: always returns at least one (possibly empty) segment. -/
def splitChar (sep : Char) : List Char → List (List Char)
  | [] => [[]]
  | c :: rest =>
    let r := splitChar sep rest
    if c = sep then [] :: r
    else
      match r with
      | s :: ss => (c :: s) :: ss
      | [] => [[c]]

/-- `extractLastSegment` from `src/index.js`: decode the URL, strip one
trailing slash, split on `/`, take the last segment; the JS
`return lastSegment || null` maps an empty last segment to `none`, and the
`catch` around `decodeURIComponent` maps a decode failure to `none`. -/
def extractLastSegment (url : String) : Option String :=
  match decodeURIComponent url with
  | none => none
  | some decodedUrl =>
    let cleanUrl := stripTrailingSlash decodedUrl
    let segments := splitChar '/' cleanUrl.data
    match segments.getLast? with
    | none => none
    | some lastSegment => if lastSegment = [] then none else some ⟨lastSegment⟩

/-- `startsWithChars s p` holds when `p` is a leading run of `s`. -/
def startsWithChars : List Char → List Char → Bool
  | _, [] => true
  | [], _ :: _ => false
  | c :: cs, p :: ps => c == p && startsWithChars cs ps

/-- Substring occurrence on character lists. -/
def hasSubstr : List Char → List Char → Bool
  | [], pat => pat.isEmpty
  | c :: rest, pat => startsWithChars (c :: rest) pat || hasSubstr rest pat

/-- Model of JS `String.prototype.includes` as used by `getUrlType`. -/
def includesStr (s pat : String) : Bool :=
  hasSubstr s.data pat.data

/-- `getUrlType` from `src/index.js`: `"product"` when the URL contains
`/product/` (checked first), else `"catalog"` when it contains `/catalog/`,
else `none`. -/
def getUrlType (url : String) : Option String :=
  if includesStr url "/product/" then some "product"
  else if includesStr url "/catalog/" then some "catalog"
  else none

/-! ### `src/processErrors.js` — the status prober -/

/-- The result of `checkUrlStatus`: HTTP status (absent on transport failure)
and the post-redirect URL when one was observed. -/
structure ProbeResult where
  status : Option Nat
  finalUrl : Option String
deriving DecidableEq, Repr

/-- The observable part of an axios response: the HTTP status and the
effective URL the transport reports after following redirects (the first
available of `request.res.responseUrl`, `request.res.responseURL`,
`request.responseURL`, `config.url`, collapsed into one optional field;
`none` when none of them is set). Both the success path and the
`error.response` path of `checkUrlStatus` carry exactly this data and
post-process it identically. -/
structure HttpResponse where
  status : Nat
  effectiveUrl : Option String
deriving DecidableEq, Repr

/-- The pure post-processing of `checkUrlStatus` in `src/processErrors.js`
on a received HTTP response: `wasRedirected = finalUrl && normalizedFinal
!== normalizedOriginal` with `normalizeUrl` stripping one trailing slash,
and `finalUrl` surfaced only when `wasRedirected`.  (On a transport failure
with no response the JS returns `{status: null, finalUrl: null}`, which
needs no modelling here.) -/
def checkUrlStatus (url : String) (resp : HttpResponse) : ProbeResult :=
  let finalUrl := resp.effectiveUrl
  let wasRedirected :=
    match finalUrl with
    | none => false
    | some f => !(f == "") && !(stripTrailingSlash f == stripTrailingSlash url)
  { status := some resp.status
    finalUrl := if wasRedirected then finalUrl else none }

/-! ### `src/index.js` — the resolution sweep (`processRedirects`) -/

/-- A row of the errors table as returned by `getErrorsByStatus(400)`:
the original failing URL, its recorded status, and the post-redirect URL
recorded in Phase A if any. -/
structure ErrorRecord where
  url : String
  status : Option Nat
  final_url : Option String
deriving DecidableEq, Repr

/-- A redirect produced by the sweep (`{from, to, percent}`; `from` and `to`
are Lean keywords, hence `fromUrl`/`toUrl`). -/
structure RedirectRecord where
  fromUrl : String
  toUrl : String
  percent : ℚ
deriving DecidableEq, Repr

/-- The mutable state of the `processRedirects` loop: the `redirects`
array and the five counters. -/
structure SweepState where
  redirects : List RedirectRecord := []
  processed : Nat := 0
  productMatches : Nat := 0
  catalogMatches : Nat := 0
  skipped : Nat := 0
  redirectedTo404 : Nat := 0
deriving DecidableEq, Repr

/-- The loop state at entry of `processRedirects` (empty array, zero
counters). -/
def initState : SweepState := {}

/-- The common `skipped++; processed++; continue` path of the loop. -/
def skipOne (st : SweepState) : SweepState :=
  { st with skipped := st.skipped + 1, processed := st.processed + 1 }

/-- The JS truthiness test `finalResult.status && finalResult.status < 400`
on an optional status. -/
def statusTruthyBelow400 : Option Nat → Bool
  | none => false
  | some s => !(s == 0) && decide (s < 400)

/-- The tail of one `processRedirects` iteration, from the `if (!urlType)`
check on: classify `url`, extract its code, pick the reference table for
the category, run `findBestMatch`, and either push a redirect record (with
`from` always the original `origUrl`, per the source comment) and bump the
per-category counter, or skip. -/
def resolveStep (products catalog : List Candidate) (st : SweepState)
    (origUrl url : String) : SweepState :=
  match getUrlType url with
  | none => skipOne st
  | some urlType =>
    match extractLastSegment url with
    | none => skipOne st
    | some code =>
      let searchTable := if urlType = "product" then products else catalog
      match findBestMatch code searchTable with
      | none => skipOne st
      | some m =>
        let toUrl := "https://frizar.ru/" ++ urlType ++ "/" ++ m.code
        { st with
          redirects := st.redirects ++ [⟨origUrl, toUrl, m.percent⟩]
          productMatches := st.productMatches + (if urlType = "product" then 1 else 0)
          catalogMatches := st.catalogMatches + (if urlType = "product" then 0 else 1)
          processed := st.processed + 1 }

/-- One full iteration of the `for (const error of errors)` loop of
`processRedirects` in `src/index.js`.  `probe` is the awaited
`checkUrlStatus` call on the recorded final URL (network, passed in as an
oracle).  The JS guard `if (error.final_url)` is a truthiness test, so an
empty final URL falls through to the plain path; the `updateErrorStatus`
store write in the 404 branch has no bearing on the loop state and is not
modelled. -/
def processOne (probe : String → ProbeResult) (products catalog : List Candidate)
    (st : SweepState) (error : ErrorRecord) : SweepState :=
  match error.final_url with
  | some finalUrl =>
    if finalUrl = "" then resolveStep products catalog st error.url error.url
    else
      let finalResult := probe finalUrl
      if finalResult.status = some 404 then
        resolveStep products catalog
          { st with redirectedTo404 := st.redirectedTo404 + 1 } error.url finalUrl
      else if statusTruthyBelow400 finalResult.status then
        skipOne st
      else
        resolveStep products catalog st error.url finalUrl
  | none => resolveStep products catalog st error.url error.url

/-- The resolution sweep of `processRedirects` over the rows returned by
`getErrorsByStatus(400)`, with the two reference tables; returns the final
loop state (the trailing `insertRedirects` store write persists
`.redirects` unchanged). -/
def processRedirects (probe : String → ProbeResult) (errors : List ErrorRecord)
    (products catalog : List Candidate) : SweepState :=
  errors.foldl (processOne probe products catalog) initState

/-- The URL a sweep iteration classifies and matches on, read off the
branch structure of `processOne`: the recorded final URL when it was
re-probed to 404 or to another error/absent status, `none` when the
iteration is skipped because the final URL re-probed healthy, and the
original URL otherwise. -/
def chosenUrl (probe : String → ProbeResult) (error : ErrorRecord) : Option String :=
  match error.final_url with
  | some finalUrl =>
    if finalUrl = "" then some error.url
    else if (probe finalUrl).status = some 404 then some finalUrl
    else if statusTruthyBelow400 (probe finalUrl).status then none
    else some finalUrl
  | none => some error.url

/-- The code extraction as the specification words it ("take the last
non-empty segment"), for comparison with `extractLastSegment`, which takes
the last segment and yields `none` when it is empty. -/
def extractLastSegmentSpec (url : String) : Option String :=
  match decodeURIComponent url with
  | none => none
  | some d =>
    let clean := stripTrailingSlash d
    let segments := (splitChar '/' clean.data).map (fun l => (⟨l⟩ : String))
    (segments.filter (fun s => s ≠ "")).getLast?

/-! ## Theorems -/

/-! ### Similarity scorer -/

theorem calcSim_empty_left (s : String) : calculateSimilarity "" s = 0 := by
  simp [calculateSimilarity]

theorem calcSim_empty_right (s : String) : calculateSimilarity s "" = 0 := by
  simp [calculateSimilarity]

/-- C3 counterexample: `calculateSimilarity` on two empty strings falls into
the falsy guard and returns 0, not 100. -/
theorem calculateSimilarity_empty_self_ne_100 : calculateSimilarity "" "" ≠ 100 := by
  decide

/-- C3 (amended): for every non-empty string `s`,
`calculateSimilarity s s = 100`; the empty string instead hits the falsy
guard and scores 0. -/
theorem calculateSimilarity_self (s : String) (h : s ≠ "") :
    calculateSimilarity s s = 100 := by
  unfold calculateSimilarity
  simp [h]

theorem calculateSimilarity_self_witness :
    ("frizar" : String) ≠ "" ∧ calculateSimilarity "frizar" "frizar" = 100 :=
  ⟨by decide, calculateSimilarity_self "frizar" (by decide)⟩

theorem jsMax_jsMin_bounds (p : ℚ) :
    0 ≤ jsMax 0 (jsMin 100 p) ∧ jsMax 0 (jsMin 100 p) ≤ 100 := by
  unfold jsMax jsMin
  split_ifs <;> constructor <;> linarith

/-- C5: `calculateSimilarity` always returns a value in `[0, 100]`: the
guard and exact-match branches return 0 or 100, and the edit-distance
branch is clamped by `Math.max(0, Math.min(100, ·))`. -/
theorem calculateSimilarity_bounds (a b : String) :
    0 ≤ calculateSimilarity a b ∧ calculateSimilarity a b ≤ 100 := by
  unfold calculateSimilarity
  dsimp only
  split_ifs with h1 h2 h3
  · constructor <;> norm_num
  · constructor <;> norm_num
  · constructor <;> norm_num
  · exact jsMax_jsMin_bounds _

/-! ### URL classifier -/

/-- C8: `getUrlType` returns `"product"` when the URL contains `/product/`
(this check comes first, so it wins even when `/catalog/` also occurs),
`"catalog"` when it contains only `/catalog/`, and `none` when it contains
neither. -/
theorem getUrlType_cases (url : String) :
    (includesStr url "/product/" = true → getUrlType url = some "product")
    ∧ (includesStr url "/product/" = false → includesStr url "/catalog/" = true →
        getUrlType url = some "catalog")
    ∧ (includesStr url "/product/" = false → includesStr url "/catalog/" = false →
        getUrlType url = none)
    ∧ (includesStr url "/product/" = true → includesStr url "/catalog/" = true →
        getUrlType url = some "product") := by
  refine ⟨?_, ?_, ?_, ?_⟩ <;> intro h1 <;> try intro h2
  all_goals simp [getUrlType, h1]
  all_goals simp_all [getUrlType]

theorem getUrlType_cases_witness :
    includesStr "https://s/product/catalog/x" "/product/" = true
    ∧ includesStr "https://s/product/catalog/x" "/catalog/" = true
    ∧ getUrlType "https://s/product/catalog/x" = some "product" :=
  ⟨by decide, by decide,
    (getUrlType_cases "https://s/product/catalog/x").2.2.2 (by decide) (by decide)⟩

/-! ### Status prober -/

/-- C9: `checkUrlStatus` surfaces a `finalUrl` only when the effective
post-redirect URL differs from the input URL after stripping one trailing
slash; whenever they agree up to a single trailing slash (or no effective
URL is reported), `finalUrl` is absent. -/
theorem checkUrlStatus_finalUrl (url : String) (resp : HttpResponse) :
    (∀ f, (checkUrlStatus url resp).finalUrl = some f →
      stripTrailingSlash f ≠ stripTrailingSlash url)
    ∧ (∀ f, resp.effectiveUrl = some f →
        stripTrailingSlash f = stripTrailingSlash url →
        (checkUrlStatus url resp).finalUrl = none)
    ∧ (resp.effectiveUrl = none → (checkUrlStatus url resp).finalUrl = none) := by
  refine ⟨?_, ?_, ?_⟩
  · intro f hf
    unfold checkUrlStatus at hf
    cases heff : resp.effectiveUrl with
    | none => simp [heff] at hf
    | some g =>
      simp only [heff] at hf
      by_cases hred : (!(g == "") && !(stripTrailingSlash g == stripTrailingSlash url)) = true
      · rw [if_pos hred] at hf
        cases hf
        simp only [Bool.and_eq_true, Bool.not_eq_true', beq_eq_false_iff_ne] at hred
        exact hred.2
      · rw [if_neg hred] at hf
        cases hf
  · intro f hf heq
    unfold checkUrlStatus
    simp [hf, heq]
  · intro hf
    unfold checkUrlStatus
    simp [hf]

theorem checkUrlStatus_finalUrl_witness :
    (⟨200, some "https://s/a"⟩ : HttpResponse).effectiveUrl = some "https://s/a"
    ∧ stripTrailingSlash "https://s/a" = stripTrailingSlash "https://s/a/"
    ∧ (checkUrlStatus "https://s/a/" ⟨200, some "https://s/a"⟩).finalUrl = none :=
  ⟨rfl, by decide,
    (checkUrlStatus_finalUrl "https://s/a/" ⟨200, some "https://s/a"⟩).2.1
      "https://s/a" rfl (by decide)⟩

/-! ### Best-match selector -/

theorem bestStep_snd_mono (q : String) (acc : Option BestMatch × ℚ) (it : Candidate) :
    acc.2 ≤ (bestStep q acc it).2 := by
  unfold bestStep
  dsimp only
  split_ifs with h1 h2
  · exact le_refl _
  · exact le_of_lt h2
  · exact le_refl _

theorem bestStep_keep (q : String) (acc : Option BestMatch × ℚ) (it : Candidate)
    (h : calculateSimilarity q it.code ≤ acc.2) : bestStep q acc it = acc := by
  unfold bestStep
  dsimp only
  split_ifs with h1 h2
  · rfl
  · exact absurd h2 (not_lt.mpr h)
  · rfl

theorem bestStep_replace (q : String) (acc : Option BestMatch × ℚ) (it : Candidate)
    (hne : it.code ≠ "") (h : acc.2 < calculateSimilarity q it.code) :
    bestStep q acc it
      = (some ⟨it.code, calculateSimilarity q it.code⟩, calculateSimilarity q it.code) := by
  unfold bestStep
  dsimp only
  split_ifs with h1
  · exact absurd h1 hne
  · rfl

theorem bestStep_score_le (q : String) (acc : Option BestMatch × ℚ) (it : Candidate)
    (h0 : 0 ≤ acc.2) : calculateSimilarity q it.code ≤ (bestStep q acc it).2 := by
  unfold bestStep
  dsimp only
  split_ifs with h1 h2
  · rw [h1, calcSim_empty_right]
    exact h0
  · exact le_refl _
  · exact not_lt.mp h2

theorem foldl_bestStep_snd_mono (q : String) (codes : List Candidate) :
    ∀ acc, acc.2 ≤ (codes.foldl (bestStep q) acc).2 := by
  induction codes with
  | nil => intro acc; exact le_refl _
  | cons c cs ih =>
    intro acc
    simp only [List.foldl_cons]
    exact le_trans (bestStep_snd_mono q acc c) (ih _)

theorem foldl_bestStep_score_le (q : String) (codes : List Candidate) :
    ∀ acc, 0 ≤ acc.2 →
      ∀ it ∈ codes, calculateSimilarity q it.code ≤ (codes.foldl (bestStep q) acc).2 := by
  induction codes with
  | nil => intro acc _ it hmem; cases hmem
  | cons c cs ih =>
    intro acc h0 it hmem
    simp only [List.foldl_cons]
    rcases List.mem_cons.mp hmem with h | h
    · subst h
      exact le_trans (bestStep_score_le q acc it h0) (foldl_bestStep_snd_mono q cs _)
    · exact ih _ (le_trans h0 (bestStep_snd_mono q acc c)) it h

theorem foldl_bestStep_fst_spec (q : String) (codes : List Candidate) :
    ∀ acc, (∀ m, acc.1 = some m → acc.2 = m.percent) →
      ∀ m, (codes.foldl (bestStep q) acc).1 = some m →
        (codes.foldl (bestStep q) acc).2 = m.percent := by
  induction codes with
  | nil => intro acc h m hm; exact h m hm
  | cons c cs ih =>
    intro acc h m hm
    simp only [List.foldl_cons] at hm ⊢
    refine ih _ ?_ m hm
    intro m' hm'
    unfold bestStep at hm' ⊢
    dsimp only at hm' ⊢
    split_ifs at hm' ⊢ with h1 h2
    · exact h m' hm'
    · cases hm'; rfl
    · exact h m' hm'

theorem foldl_bestStep_id (q : String) (codes : List Candidate) :
    ∀ acc, 0 ≤ acc.2 → (∀ it ∈ codes, calculateSimilarity q it.code = 0) →
      codes.foldl (bestStep q) acc = acc := by
  induction codes with
  | nil => intro acc _ _; rfl
  | cons c cs ih =>
    intro acc h0 hz
    simp only [List.foldl_cons]
    have hkeep : bestStep q acc c = acc :=
      bestStep_keep q acc c (by rw [hz c (List.mem_cons_self c cs)]; exact h0)
    rw [hkeep]
    exact ih acc h0 (fun it hmem => hz it (List.mem_cons_of_mem c hmem))

/-- C4: `findBestMatch` keeps the running best on an exact tie (the
comparison is strict, so a later candidate replaces the current best only
with a strictly greater score), every candidate scores at most the returned
match's score, and on the spec's concrete tie
(`query "ab1"` against `[{code:"abx1"}, {code:"abkh1"}]`, both of which
normalize to `"ab1"` and score 100) the first candidate wins. -/
theorem findBestMatch_first_wins :
    (findBestMatch "ab1" [⟨"abx1"⟩, ⟨"abkh1"⟩] = some ⟨"abx1", 100⟩)
    ∧ (∀ (q : String) (acc : Option BestMatch × ℚ) (it : Candidate),
        calculateSimilarity q it.code ≤ acc.2 → bestStep q acc it = acc)
    ∧ (∀ (q : String) (acc : Option BestMatch × ℚ) (it : Candidate),
        it.code ≠ "" → acc.2 < calculateSimilarity q it.code →
        bestStep q acc it
          = (some ⟨it.code, calculateSimilarity q it.code⟩, calculateSimilarity q it.code))
    ∧ (∀ (q : String) (codes : List Candidate) (m : BestMatch),
        findBestMatch q codes = some m →
        ∀ it ∈ codes, calculateSimilarity q it.code ≤ m.percent) := by
  refine ⟨by decide, bestStep_keep, bestStep_replace, ?_⟩
  intro q codes m hm it hmem
  unfold findBestMatch at hm
  split_ifs at hm with hg
  have hspec := foldl_bestStep_fst_spec q codes (none, 0) (by intro m' hm'; cases hm') m hm
  have hle := foldl_bestStep_score_le q codes (none, 0) (le_refl 0) it hmem
  rw [hspec] at hle
  exact hle

theorem findBestMatch_first_wins_witness :
    calculateSimilarity "ab1" "abkh1" ≤ ((some ⟨"abx1", 100⟩, (100 : ℚ)) :
        Option BestMatch × ℚ).2
    ∧ bestStep "ab1" (some ⟨"abx1", 100⟩, 100) ⟨"abkh1"⟩ = (some ⟨"abx1", 100⟩, 100) :=
  ⟨by decide, findBestMatch_first_wins.2.1 "ab1" (some ⟨"abx1", 100⟩, 100) ⟨"abkh1"⟩ (by decide)⟩

/-- C6: `findBestMatch` returns `none` on an empty query, an empty candidate
list, a candidate list in which no candidate has a non-empty code, and more
generally whenever every candidate scores 0 (nothing beats the initial zero
baseline); and a sweep record whose match comes back `none` is counted as
skipped (skipped counter bumped, no redirect record). -/
theorem findBestMatch_none_cases :
    (∀ codes : List Candidate, findBestMatch "" codes = none)
    ∧ (∀ q : String, findBestMatch q [] = none)
    ∧ (∀ (q : String) (codes : List Candidate),
        (∀ it ∈ codes, it.code = "") → findBestMatch q codes = none)
    ∧ (∀ (q : String) (codes : List Candidate),
        (∀ it ∈ codes, calculateSimilarity q it.code = 0) → findBestMatch q codes = none)
    ∧ (∀ (P C : List Candidate) (st : SweepState) (origUrl url t code : String),
        getUrlType url = some t → extractLastSegment url = some code →
        findBestMatch code (if t = "product" then P else C) = none →
        (resolveStep P C st origUrl url).skipped = st.skipped + 1
        ∧ (resolveStep P C st origUrl url).redirects = st.redirects) := by
  have hzero : ∀ (q : String) (codes : List Candidate),
      (∀ it ∈ codes, calculateSimilarity q it.code = 0) → findBestMatch q codes = none := by
    intro q codes hz
    unfold findBestMatch
    split_ifs with hg
    · rfl
    · rw [foldl_bestStep_id q codes (none, 0) (le_refl 0) hz]
  refine ⟨?_, ?_, ?_, hzero, ?_⟩
  · intro codes; simp [findBestMatch]
  · intro q; simp [findBestMatch]
  · intro q codes h
    exact hzero q codes (fun it hmem => by rw [h it hmem, calcSim_empty_right])
  · intro P C st origUrl url t code hT hc hm
    unfold resolveStep
    rw [hT, hc]
    dsimp only
    rw [hm]
    exact ⟨rfl, rfl⟩

theorem findBestMatch_none_cases_witness :
    (∀ it ∈ [(⟨""⟩ : Candidate)], it.code = "")
    ∧ findBestMatch "b" [(⟨""⟩ : Candidate)] = none :=
  ⟨by decide, findBestMatch_none_cases.2.2.1 "b" [⟨""⟩] (by decide)⟩

/-! ### Resolution sweep -/

theorem resolveStep_redirectedTo404 (P C : List Candidate) (st : SweepState)
    (k : Nat) (o u : String) :
    resolveStep P C { st with redirectedTo404 := k } o u
      = { resolveStep P C st o u with redirectedTo404 := k } := by
  unfold resolveStep skipOne
  cases getUrlType u with
  | none => rfl
  | some t =>
    cases extractLastSegment u with
    | none => rfl
    | some c =>
      dsimp only
      cases findBestMatch c (if t = "product" then P else C) with
      | none => rfl
      | some m => rfl

theorem resolveStep_redirects_of_match (P C : List Candidate) (st : SweepState)
    (o u t c : String) (m : BestMatch)
    (hT : getUrlType u = some t) (hc : extractLastSegment u = some c)
    (hm : findBestMatch c (if t = "product" then P else C) = some m) :
    (resolveStep P C st o u).redirects
      = st.redirects ++ [⟨o, "https://frizar.ru/" ++ t ++ "/" ++ m.code, m.percent⟩] := by
  unfold resolveStep
  rw [hT, hc]
  dsimp only
  rw [hm]

theorem resolveStep_redirects_of_skip (P C : List Candidate) (st : SweepState)
    (o u : String) :
    (getUrlType u = none → (resolveStep P C st o u).redirects = st.redirects)
    ∧ (∀ t, getUrlType u = some t → extractLastSegment u = none →
        (resolveStep P C st o u).redirects = st.redirects)
    ∧ (∀ t c, getUrlType u = some t → extractLastSegment u = some c →
        findBestMatch c (if t = "product" then P else C) = none →
        (resolveStep P C st o u).redirects = st.redirects) := by
  refine ⟨?_, ?_, ?_⟩
  · intro hT; unfold resolveStep; rw [hT]; rfl
  · intro t hT hc; unfold resolveStep; rw [hT, hc]; rfl
  · intro t c hT hc hm
    unfold resolveStep
    rw [hT, hc]
    dsimp only
    rw [hm]; rfl

theorem processOne_redirects_eq (probe : String → ProbeResult)
    (P C : List Candidate) (st : SweepState) (e : ErrorRecord) :
    (processOne probe P C st e).redirects =
      match chosenUrl probe e with
      | none => st.redirects
      | some u => (resolveStep P C st e.url u).redirects := by
  unfold processOne chosenUrl
  cases hfu : e.final_url with
  | none => rfl
  | some fu =>
    dsimp only
    by_cases hempty : fu = ""
    · rw [if_pos hempty, if_pos hempty]
    · rw [if_neg hempty, if_neg hempty]
      by_cases h404 : (probe fu).status = some 404
      · rw [if_pos h404, if_pos h404]
        rw [resolveStep_redirectedTo404]
      · rw [if_neg h404, if_neg h404]
        by_cases hskip : statusTruthyBelow400 (probe fu).status = true
        · rw [if_pos hskip, if_pos hskip]
          rfl
        · rw [if_neg hskip, if_neg hskip]

/-- C1: a sweep iteration emits a redirect record exactly when
`findBestMatch` finds a match for the code extracted from the URL the
iteration classifies on; the emitted record has `from` equal to the
original failing `error.url` (even when a final URL was matched against),
`to` equal to `"https://frizar.ru/" ++ category ++ "/" ++ match.code`, and
`percent` equal to the match score; every other outcome (skipped record,
no category, no code, no match) leaves the redirect list unchanged, so no
record is ever defaulted to percent 0. -/
theorem processOne_emission (probe : String → ProbeResult)
    (P C : List Candidate) (st : SweepState) (e : ErrorRecord) :
    (chosenUrl probe e = none → (processOne probe P C st e).redirects = st.redirects)
    ∧ (∀ u, chosenUrl probe e = some u → getUrlType u = none →
        (processOne probe P C st e).redirects = st.redirects)
    ∧ (∀ u t, chosenUrl probe e = some u → getUrlType u = some t →
        extractLastSegment u = none →
        (processOne probe P C st e).redirects = st.redirects)
    ∧ (∀ u t c, chosenUrl probe e = some u → getUrlType u = some t →
        extractLastSegment u = some c →
        findBestMatch c (if t = "product" then P else C) = none →
        (processOne probe P C st e).redirects = st.redirects)
    ∧ (∀ u t c m, chosenUrl probe e = some u → getUrlType u = some t →
        extractLastSegment u = some c →
        findBestMatch c (if t = "product" then P else C) = some m →
        (processOne probe P C st e).redirects
          = st.redirects ++ [⟨e.url, "https://frizar.ru/" ++ t ++ "/" ++ m.code, m.percent⟩]) := by
  refine ⟨?_, ?_, ?_, ?_, ?_⟩
  · intro hu
    rw [processOne_redirects_eq, hu]
  · intro u hu hT
    rw [processOne_redirects_eq, hu]
    exact (resolveStep_redirects_of_skip P C st e.url u).1 hT
  · intro u t hu hT hc
    rw [processOne_redirects_eq, hu]
    exact (resolveStep_redirects_of_skip P C st e.url u).2.1 t hT hc
  · intro u t c hu hT hc hm
    rw [processOne_redirects_eq, hu]
    exact (resolveStep_redirects_of_skip P C st e.url u).2.2 t c hT hc hm
  · intro u t c m hu hT hc hm
    rw [processOne_redirects_eq, hu]
    exact resolveStep_redirects_of_match P C st e.url u t c m hT hc hm

theorem processOne_emission_witness :
    (processOne (fun _ => ⟨none, none⟩) [⟨"b"⟩] [] initState
        ⟨"https://s/product/b", some 404, none⟩).redirects
      = initState.redirects
          ++ [⟨"https://s/product/b", "https://frizar.ru/" ++ "product" ++ "/" ++ "b", 100⟩] :=
  (processOne_emission (fun _ => ⟨none, none⟩) [⟨"b"⟩] [] initState
      ⟨"https://s/product/b", some 404, none⟩).2.2.2.2
    "https://s/product/b" "product" "b" ⟨"b", 100⟩ rfl (by decide) (by decide) (by decide)

/-- C2 counterexample: two sweep iterations on which the claim's
final-URL branch description fails.  First, a record whose final URL
re-probes with the present status 0: the status is present and `< 400`, so
the claim demands the record be skipped with no redirect emitted, but the
JS truthiness test `finalResult.status && finalResult.status < 400` is
false at 0, so the code falls to the error branch, matches on the final
URL and emits a record.  Second, a record carrying the (empty-string)
final URL `""`: its re-probe would yield 200, so the claim demands a skip,
but `if (error.final_url)` is false on the empty string, so the code never
re-probes and emits a record from the original URL. -/
theorem processOne_final_url_counterexample :
    ((processOne (fun _ => ⟨some 0, none⟩) [⟨"b"⟩] [] initState
        ⟨"https://s/product/a", some 404, some "https://s/product/b"⟩).redirects
      = [⟨"https://s/product/a", "https://frizar.ru/product/b", 100⟩]
    ∧ (processOne (fun _ => ⟨some 0, none⟩) [⟨"b"⟩] [] initState
        ⟨"https://s/product/a", some 404, some "https://s/product/b"⟩).skipped = 0)
    ∧ ((processOne (fun _ => ⟨some 200, none⟩) [⟨"b"⟩] [] initState
        ⟨"https://s/product/b", some 404, some ""⟩).redirects
      = [⟨"https://s/product/b", "https://frizar.ru/product/b", 100⟩]
    ∧ (processOne (fun _ => ⟨some 200, none⟩) [⟨"b"⟩] [] initState
        ⟨"https://s/product/b", some 404, some ""⟩).skipped = 0) := by
  decide

/-- C2 (amended): for every error record carrying a non-empty final URL:
a re-probe status of exactly 404 routes classification and matching to the
final URL and bumps `redirectedTo404`; a present, nonzero re-probe status
`< 400` skips the record entirely (skipped bumped, `redirectedTo404` and
the redirect list untouched); and any other outcome — an error status
`≥ 400` other than 404, the status 0 (falsy in JS), or an absent status —
falls back to classifying and matching on the final URL without bumping
`redirectedTo404`. -/
theorem processOne_final_url_branches (probe : String → ProbeResult)
    (P C : List Candidate) (st : SweepState) (e : ErrorRecord) (fu : String)
    (hfu : e.final_url = some fu) (hne : fu ≠ "") :
    ((probe fu).status = some 404 →
      processOne probe P C st e
        = resolveStep P C { st with redirectedTo404 := st.redirectedTo404 + 1 } e.url fu)
    ∧ (∀ s, (probe fu).status = some s → s ≠ 0 → s < 400 →
        processOne probe P C st e = skipOne st)
    ∧ (∀ s, (probe fu).status = some s → s ≠ 404 → ¬s < 400 →
        processOne probe P C st e = resolveStep P C st e.url fu)
    ∧ ((probe fu).status = some 0 →
        processOne probe P C st e = resolveStep P C st e.url fu)
    ∧ ((probe fu).status = none →
        processOne probe P C st e = resolveStep P C st e.url fu) := by
  unfold processOne
  rw [hfu]
  dsimp only
  rw [if_neg hne]
  refine ⟨?_, ?_, ?_, ?_, ?_⟩
  · intro h404
    rw [if_pos h404]
  · intro s hs h0 hlt
    have h404 : ¬(probe fu).status = some 404 := by
      rw [hs]; intro hcon; cases hcon; omega
    rw [if_neg h404, if_pos (by rw [hs]; simp [statusTruthyBelow400, h0, hlt])]
  · intro s hs hs404 hge
    have h404 : ¬(probe fu).status = some 404 := by
      rw [hs]; intro hcon; cases hcon; exact hs404 rfl
    rw [if_neg h404,
      if_neg (by rw [hs]; simp [statusTruthyBelow400]; intro _; omega)]
  · intro h0
    rw [if_neg (by rw [h0]; intro hcon; cases hcon),
      if_neg (by rw [h0]; simp [statusTruthyBelow400])]
  · intro habs
    rw [if_neg (by rw [habs]; intro hcon; cases hcon),
      if_neg (by rw [habs]; simp [statusTruthyBelow400])]

theorem processOne_final_url_branches_witness :
    ((fun _ => (⟨some 404, none⟩ : ProbeResult)) "https://s/f").status = some 404
    ∧ processOne (fun _ => ⟨some 404, none⟩) [] [] initState
        ⟨"https://s/a", some 500, some "https://s/f"⟩
      = resolveStep [] [] { initState with redirectedTo404 := initState.redirectedTo404 + 1 }
          "https://s/a" "https://s/f" :=
  ⟨rfl,
    (processOne_final_url_branches (fun _ => ⟨some 404, none⟩) [] [] initState
        ⟨"https://s/a", some 500, some "https://s/f"⟩ "https://s/f" rfl (by decide)).1 rfl⟩

theorem resolveStep_counts (P C : List Candidate) (st : SweepState) (o u : String) :
    (resolveStep P C st o u).processed = st.processed + 1
    ∧ (resolveStep P C st o u).productMatches + (resolveStep P C st o u).catalogMatches
        + (resolveStep P C st o u).skipped
      = st.productMatches + st.catalogMatches + st.skipped + 1
    ∧ (resolveStep P C st o u).redirects.length + st.productMatches + st.catalogMatches
      = st.redirects.length
        + ((resolveStep P C st o u).productMatches + (resolveStep P C st o u).catalogMatches) := by
  unfold resolveStep skipOne
  cases getUrlType u with
  | none => dsimp only; refine ⟨rfl, by omega, by omega⟩
  | some t =>
    cases extractLastSegment u with
    | none => dsimp only; refine ⟨rfl, by omega, by omega⟩
    | some c =>
      dsimp only
      cases findBestMatch c (if t = "product" then P else C) with
      | none => dsimp only; refine ⟨rfl, by omega, by omega⟩
      | some m =>
        dsimp only
        refine ⟨rfl, ?_, ?_⟩ <;> split_ifs <;>
          try simp only [List.length_append, List.length_singleton]
        all_goals omega

theorem processOne_counts (probe : String → ProbeResult) (P C : List Candidate)
    (st : SweepState) (e : ErrorRecord) :
    (processOne probe P C st e).processed = st.processed + 1
    ∧ (processOne probe P C st e).productMatches + (processOne probe P C st e).catalogMatches
        + (processOne probe P C st e).skipped
      = st.productMatches + st.catalogMatches + st.skipped + 1
    ∧ (processOne probe P C st e).redirects.length + st.productMatches + st.catalogMatches
      = st.redirects.length
        + ((processOne probe P C st e).productMatches
            + (processOne probe P C st e).catalogMatches) := by
  unfold processOne
  cases e.final_url with
  | none => exact resolveStep_counts P C st e.url e.url
  | some fu =>
    dsimp only
    by_cases hempty : fu = ""
    · rw [if_pos hempty]
      exact resolveStep_counts P C st e.url e.url
    · rw [if_neg hempty]
      by_cases h404 : (probe fu).status = some 404
      · rw [if_pos h404]
        rw [resolveStep_redirectedTo404]
        have h := resolveStep_counts P C st e.url fu
        refine ⟨h.1, h.2.1, h.2.2⟩
      · rw [if_neg h404]
        by_cases hskip : statusTruthyBelow400 (probe fu).status = true
        · rw [if_pos hskip]
          exact ⟨rfl, by simp only [skipOne]; omega, by simp only [skipOne]; omega⟩
        · rw [if_neg hskip]
          exact resolveStep_counts P C st e.url fu

theorem foldl_processOne_counts (probe : String → ProbeResult) (P C : List Candidate)
    (errors : List ErrorRecord) :
    ∀ st : SweepState,
      (errors.foldl (processOne probe P C) st).processed = st.processed + errors.length
      ∧ (errors.foldl (processOne probe P C) st).productMatches
          + (errors.foldl (processOne probe P C) st).catalogMatches
          + (errors.foldl (processOne probe P C) st).skipped
        = st.productMatches + st.catalogMatches + st.skipped + errors.length
      ∧ (errors.foldl (processOne probe P C) st).redirects.length
          + st.productMatches + st.catalogMatches
        = st.redirects.length
          + ((errors.foldl (processOne probe P C) st).productMatches
              + (errors.foldl (processOne probe P C) st).catalogMatches) := by
  induction errors with
  | nil =>
    intro st
    simp only [List.foldl_nil, List.length_nil]
    exact ⟨rfl, by omega, by omega⟩
  | cons e es ih =>
    intro st
    simp only [List.foldl_cons, List.length_cons]
    have h1 := processOne_counts probe P C st e
    have h2 := ih (processOne probe P C st e)
    refine ⟨by omega, by omega, by omega⟩

/-- C10: after the resolution sweep, `processed` equals the number of input
error records, `processed = productMatches + catalogMatches + skipped`
(every record is counted on exactly one branch), and the number of emitted
redirect records equals `productMatches + catalogMatches`. -/
theorem processRedirects_counters (probe : String → ProbeResult)
    (errors : List ErrorRecord) (P C : List Candidate) :
    (processRedirects probe errors P C).processed = errors.length
    ∧ (processRedirects probe errors P C).processed
      = (processRedirects probe errors P C).productMatches
        + (processRedirects probe errors P C).catalogMatches
        + (processRedirects probe errors P C).skipped
    ∧ (processRedirects probe errors P C).redirects.length
      = (processRedirects probe errors P C).productMatches
        + (processRedirects probe errors P C).catalogMatches := by
  have h := foldl_processOne_counts probe P C errors initState
  simp only [initState, List.length_nil] at h
  unfold processRedirects initState
  refine ⟨?_, ?_, ?_⟩ <;> omega

/-! ### Code extraction -/

theorem getLast?_filter_of_pos {α : Type} (p : α → Bool) (l : List α) (a : α)
    (h : l.getLast? = some a) (hp : p a = true) : (l.filter p).getLast? = some a := by
  rw [List.getLast?_eq_head?_reverse] at h ⊢
  rw [← List.filter_reverse]
  cases hrev : l.reverse with
  | nil => rw [hrev] at h; cases h
  | cons b t =>
    rw [hrev] at h
    simp only [List.head?_cons, Option.some.injEq] at h
    subst h
    simp [List.filter_cons, hp]

/-- C7 counterexample: on a URL whose path ends in a double slash, the
spec's procedure ("take the last non-empty segment") yields `"abc"`, but
`extractLastSegment` takes the literal last segment — empty after one
trailing slash is stripped — and returns `none`. -/
theorem extractLastSegment_counterexample :
    extractLastSegmentSpec "https://s/product/abc//" = some "abc"
    ∧ extractLastSegment "https://s/product/abc//" = none := by
  decide

/-- C7 (amended): the extracted code is obtained by URL-decoding the
string, stripping a single trailing `/`, splitting on `/`, and taking the
last segment, yielding `none` when that last segment is empty (not the
last non-empty one); when decoding fails the extraction yields `none`.
Whenever the code's extraction does produce a code, the code is non-empty
and agrees with the spec's last-non-empty-segment reading. -/
theorem extractLastSegment_amended (url : String) :
    (decodeURIComponent url = none → extractLastSegment url = none)
    ∧ (∀ d, decodeURIComponent url = some d →
        extractLastSegment url =
          match (splitChar '/' (stripTrailingSlash d).data).getLast? with
          | none => none
          | some seg => if seg = [] then none else some ⟨seg⟩)
    ∧ (∀ c, extractLastSegment url = some c →
        c ≠ "" ∧ extractLastSegmentSpec url = some c) := by
  refine ⟨?_, ?_, ?_⟩
  · intro hd
    unfold extractLastSegment
    rw [hd]
  · intro d hd
    unfold extractLastSegment
    rw [hd]
  · intro c hc
    unfold extractLastSegment at hc
    cases hd : decodeURIComponent url with
    | none => rw [hd] at hc; cases hc
    | some d =>
      rw [hd] at hc
      dsimp only at hc
      cases hl : (splitChar '/' (stripTrailingSlash d).data).getLast? with
      | none => rw [hl] at hc; cases hc
      | some seg =>
        rw [hl] at hc
        dsimp only at hc
        split_ifs at hc with hseg
        cases hc
        have hne : (⟨seg⟩ : String) ≠ "" := by
          intro hcon
          apply hseg
          have := congrArg String.data hcon
          simpa using this
        refine ⟨hne, ?_⟩
        unfold extractLastSegmentSpec
        rw [hd]
        dsimp only
        refine getLast?_filter_of_pos _ _ _ ?_ (decide_eq_true hne)
        rw [List.getLast?_map, hl]
        rfl

theorem extractLastSegment_amended_witness :
    decodeURIComponent "https://s/product/a%zzb" = none
    ∧ extractLastSegment "https://s/product/a%zzb" = none :=
  ⟨by decide, (extractLastSegment_amended "https://s/product/a%zzb").1 (by decide)⟩

end Frizar
